import Mathlib

/-!
# Verification of the Synapse Gemini service core

Shallow embedding of the history normalizer (`buildGeminiHistory`) and the
model-fallback orchestrator (`getGeminiAPIResponse`) of the Synapse backend,
together with proofs of the specified invariants: role alternation, empty
pruning, fallback order, error classification, and exhaustion behaviour.

The external Gemini client is a black box; it is modelled as an oracle
function passed to the orchestrator.  JavaScript arrays become `List`,
strings become `String` (a string is falsy exactly when it is empty), and a
thrown error object becomes a `JsError` value carrying its `message` string
plus an opaque `detail` field standing for the rest of the error object.
-/

namespace Synapse

/-- Role of a stored message, as produced by upstream storage
(`enum {user, assistant}` per the data model). -/
inductive Role where
  | user
  | assistant
deriving DecidableEq

/-- A stored message: `{role, content}`.  An empty `content` string is the
falsy case of the source's `m.content` test. -/
structure Message where
  role : Role
  content : String
deriving DecidableEq

/-- Provider-facing role of a normalized turn (`"user"` or `"model"`). -/
inductive GRole where
  | user
  | model
deriving DecidableEq

/-- One element of a Gemini `parts` array: `{ text: ... }`. -/
structure Part where
  text : String
deriving DecidableEq

/-- A Gemini history entry: `{ role, parts: [{ text }] }`. -/
structure Turn where
  role : GRole
  parts : List Part
deriving DecidableEq

/-- The role mapping of source line 40:
`msg.role === "assistant" ? "model" : "user"`. -/
def toGeminiRole (r : Role) : GRole :=
  if r = Role.assistant then GRole.model else GRole.user

/-- The turn pushed for a message on source lines 47-50. -/
def turnOf (m : Message) : Turn :=
  { role := toGeminiRole m.role, parts := [{ text := m.content }] }

/-- JavaScript `Array.prototype.findIndex`, with `none` for the `-1` case. -/
def findIndexP (p : Message → Bool) : List Message → Option Nat
  | [] => none
  | m :: rest => if p m then some 0 else (findIndexP p rest).map (· + 1)

/-- The alternation walk of source lines 35-52: walk the remaining messages,
skipping any whose mapped role equals the last emitted one (`lastRole`),
and emit a fresh turn otherwise. -/
def buildLoop : List Message → Option GRole → List Turn
  | [], _ => []
  | msg :: rest, lastRole =>
    if some (toGeminiRole msg.role) = lastRole then
      buildLoop rest lastRole
    else
      { role := toGeminiRole msg.role, parts := [{ text := msg.content }] }
        :: buildLoop rest (some (toGeminiRole msg.role))

/-- `buildGeminiHistory` (source lines 18-55): filter out falsy-content
messages, find the first `user` message (returning `[]` when there is none,
the `-1` case), drop everything before it, then run the alternation walk. -/
def buildGeminiHistory (messages : List Message) : List Turn :=
  let validMessages := messages.filter (fun m => decide (m.content ≠ ""))
  match findIndexP (fun m => decide (m.role = Role.user)) validMessages with
  | none => []
  | some firstUserIndex => buildLoop (validMessages.drop firstUserIndex) none

/-- An error value thrown by an attempt: its `message` string plus an opaque
`detail` standing for every other field of the JavaScript error object, so
that "propagated unchanged" is about the whole object, not just the text. -/
structure JsError where
  message : String
  detail : Nat
deriving DecidableEq

/-- Outcome of one external generation attempt
(`chat.sendMessage` resolving, or throwing inside the `try`). -/
inductive GenResult where
  | success (text : String)
  | failure (err : JsError)
deriving DecidableEq

/-- Overall outcome of `getGeminiAPIResponse`: a returned text, a rethrown
attempt error (source line 107), the aggregate error built on source
line 114, or the TypeError a null dereference would raise. -/
inductive OrchResult where
  | ok (text : String)
  | thrown (err : JsError)
  | allUnavailable (message : String)
  | nullError
deriving DecidableEq

/-- `pat` occurs in `l` starting at its head. -/
def matchAt : List Char → List Char → Bool
  | [], _ => true
  | _ :: _, [] => false
  | c :: cs, d :: ds => c = d && matchAt cs ds

/-- `pat` occurs somewhere in `l`. -/
def hasSubList (pat : List Char) : List Char → Bool
  | [] => matchAt pat []
  | d :: ds => matchAt pat (d :: ds) || hasSubList pat ds

/-- JavaScript `String.prototype.includes`. -/
def strIncludes (s pat : String) : Bool :=
  hasSubList pat.toList s.toList

/-- The classification test of source line 100:
`err.message && err.message.includes("429")` -- the message string is truthy
(non-empty) and contains the substring `"429"`. -/
def isRateLimited (err : JsError) : Bool :=
  (err.message != "") && strIncludes err.message "429"

/-- The fixed fallback chain of source lines 7-11. -/
def MODELS_TO_TRY : List String :=
  ["gemini-2.5-pro", "gemini-2.5-flash", "gemini-2.5-flash-lite"]

/-- The `for (const modelName of MODELS_TO_TRY)` loop of source lines 75-114,
instrumented: the first component records which models were attempted, in
order; the second is the result returned or thrown.  `attempt modelName` is
the whole `try` body for that model.  On a caught error the code first
records it in `lastKnownError` (line 96), then continues on a rate limit and
rethrows otherwise; after the loop it throws the aggregate error of
line 114 (dereferencing `lastKnownError`, still `null` only if the model
list were empty). -/
def modelsLoop (attempt : String → GenResult) :
    List String → Option JsError → List String × OrchResult
  | [], lastKnownError =>
    match lastKnownError with
    | some e =>
      ([], OrchResult.allUnavailable
        ("All Gemini models are unavailable. Last error: " ++ e.message))
    | none => ([], OrchResult.nullError)
  | modelName :: restModels, _lastKnownError =>
    match attempt modelName with
    | GenResult.success text => ([modelName], OrchResult.ok text)
    | GenResult.failure err =>
      if isRateLimited err then
        let r := modelsLoop attempt restModels (some err)
        (modelName :: r.1, r.2)
      else
        ([modelName], OrchResult.thrown err)

/-- `getGeminiAPIResponse` (source lines 62-115), instrumented with the list
of attempted models.  The external capability is the oracle
`attempt modelName history promptText`.  The last message is the new prompt
(`messages[messages.length - 1]`), the rest (`messages.slice(0, -1)`) is
normalized into the Gemini history.  On an empty input the source would
dereference `undefined`, modelled as `nullError`. -/
def getGeminiAPIResponseT (attempt : String → List Turn → String → GenResult)
    (messages : List Message) : List String × OrchResult :=
  match messages.getLast? with
  | none => ([], OrchResult.nullError)
  | some newPromptMsg =>
    let geminiHistory := buildGeminiHistory messages.dropLast
    modelsLoop (fun modelName => attempt modelName geminiHistory newPromptMsg.content)
      MODELS_TO_TRY none

/-- The result (returned text or thrown error) of `getGeminiAPIResponse`. -/
def getGeminiAPIResponse (attempt : String → List Turn → String → GenResult)
    (messages : List Message) : OrchResult :=
  (getGeminiAPIResponseT attempt messages).2

/-- Memory state of the normalizer's loop (source lines 35-52), used to show
the imperative code never writes to its input: `messages` is the caller's
array, `rest` the iterator position in `roleAlternatingHistory`, `lastRole`
the mutable local, and `filteredHistory` the array being pushed to. -/
structure NormState where
  messages : List Message
  rest : List Message
  lastRole : Option GRole
  filteredHistory : List Turn
deriving DecidableEq

/-- Operational embedding of the `for (const msg of roleAlternatingHistory)`
loop: each iteration either skips or pushes onto `filteredHistory`
(append, as `Array.prototype.push` does) and overwrites `lastRole`;
`messagesArr` is threaded through untouched, as the source never assigns to
`messages` or its elements. -/
def normLoopGo (messagesArr : List Message) (lastRole : Option GRole)
    (filteredHistory : List Turn) : List Message → NormState
  | [] => ⟨messagesArr, [], lastRole, filteredHistory⟩
  | msg :: rest =>
    if some (toGeminiRole msg.role) = lastRole then
      normLoopGo messagesArr lastRole filteredHistory rest
    else
      normLoopGo messagesArr (some (toGeminiRole msg.role))
        (filteredHistory ++
          [{ role := toGeminiRole msg.role, parts := [{ text := msg.content }] }])
        rest

/-- `buildGeminiHistory` run operationally: returns the caller's `messages`
array as it stands after execution, together with the returned history
(`filter` and `slice` allocate fresh arrays in the source). -/
def buildGeminiHistoryExec (messages : List Message) : List Message × List Turn :=
  let validMessages := messages.filter (fun m => decide (m.content ≠ ""))
  match findIndexP (fun m => decide (m.role = Role.user)) validMessages with
  | none => (messages, [])
  | some firstUserIndex =>
    let s := normLoopGo messages none [] (validMessages.drop firstUserIndex)
    (s.messages, s.filteredHistory)

/-! ## Helper lemmas -/

/-- A successful `findIndex` points at an element satisfying the predicate,
and dropping up to it exposes that element first. -/
theorem findIndexP_drop (p : Message → Bool) :
    ∀ (l : List Message) (i : Nat), findIndexP p l = some i →
      ∃ m rest, l.drop i = m :: rest ∧ p m = true := by
  intro l
  induction l with
  | nil => intro i h; simp [findIndexP] at h
  | cons a l ih =>
    intro i h
    by_cases hp : p a = true
    · rw [findIndexP, if_pos hp] at h
      obtain rfl : (0 : Nat) = i := by simpa using h
      exact ⟨a, l, rfl, hp⟩
    · rw [findIndexP, if_neg hp] at h
      cases hfi : findIndexP p l with
      | none => rw [hfi] at h; simp at h
      | some j =>
        rw [hfi] at h
        obtain rfl : j + 1 = i := by simpa using h
        obtain ⟨m, rest, hd, hm⟩ := ih j hfi
        exact ⟨m, rest, by simpa using hd, hm⟩

/-- `findIndex` misses (`-1` in the source) when no element satisfies the
predicate. -/
theorem findIndexP_none (p : Message → Bool) :
    ∀ l : List Message, (∀ m ∈ l, p m = false) → findIndexP p l = none := by
  intro l
  induction l with
  | nil => intro _; rfl
  | cons a l ih =>
    intro h
    rw [findIndexP, if_neg (by simp [h a (List.mem_cons_self a l)]),
      ih (fun m hm => h m (List.mem_cons_of_mem a hm))]
    rfl

/-- The first turn the walk emits under `lastRole = some r` has a role other
than `r`. -/
theorem buildLoop_head_role (msgs : List Message) (r : GRole) :
    ∀ t, (buildLoop msgs (some r)).head? = some t → t.role ≠ r := by
  induction msgs with
  | nil => intro t h; simp [buildLoop] at h
  | cons msg rest ih =>
    intro t h
    by_cases hc : some (toGeminiRole msg.role) = some r
    · rw [buildLoop, if_pos hc] at h
      exact ih t h
    · rw [buildLoop, if_neg hc] at h
      simp only [List.head?_cons, Option.some.injEq] at h
      subst h
      exact fun hr => hc (by simp only [Option.some.injEq]; exact hr)

/-- The walk's output has no two adjacent turns with the same role. -/
theorem buildLoop_chain (msgs : List Message) :
    ∀ lastRole, List.Chain' (fun a b : Turn => a.role ≠ b.role) (buildLoop msgs lastRole) := by
  induction msgs with
  | nil => intro _; simp [buildLoop]
  | cons msg rest ih =>
    intro lastRole
    by_cases hc : some (toGeminiRole msg.role) = lastRole
    · rw [buildLoop, if_pos hc]; exact ih lastRole
    · rw [buildLoop, if_neg hc, List.chain'_cons']
      refine ⟨fun y hy => ?_, ih (some (toGeminiRole msg.role))⟩
      have := buildLoop_head_role rest (toGeminiRole msg.role) y (Option.mem_def.mp hy)
      exact fun hr => this hr.symm

/-- Every turn the walk emits is `turnOf` one of the walked messages. -/
theorem buildLoop_mem (msgs : List Message) :
    ∀ lastRole t, t ∈ buildLoop msgs lastRole → ∃ m ∈ msgs, t = turnOf m := by
  induction msgs with
  | nil => intro _ t h; simp [buildLoop] at h
  | cons msg rest ih =>
    intro lastRole t h
    by_cases hc : some (toGeminiRole msg.role) = lastRole
    · rw [buildLoop, if_pos hc] at h
      obtain ⟨m, hm, ht⟩ := ih _ t h
      exact ⟨m, List.mem_cons_of_mem _ hm, ht⟩
    · rw [buildLoop, if_neg hc] at h
      rcases List.mem_cons.mp h with h | h
      · exact ⟨msg, List.mem_cons_self _ _, by simp [h, turnOf]⟩
      · obtain ⟨m, hm, ht⟩ := ih _ t h
        exact ⟨m, List.mem_cons_of_mem _ hm, ht⟩

/-- The role mapping of line 40 is injective on the two storage roles. -/
theorem toGeminiRole_inj (r s : Role) (h : toGeminiRole r = toGeminiRole s) : r = s := by
  cases r <;> cases s <;> first | rfl | simp [toGeminiRole] at h

/-- On input whose mapped roles already alternate and whose head differs from
`lastRole`, the walk emits every message. -/
theorem buildLoop_eq_map (msgs : List Message) :
    ∀ lastRole,
      List.Chain' (fun a b : Message => toGeminiRole a.role ≠ toGeminiRole b.role) msgs →
      (∀ m, msgs.head? = some m → some (toGeminiRole m.role) ≠ lastRole) →
      buildLoop msgs lastRole = msgs.map turnOf := by
  induction msgs with
  | nil => intro _ _ _; simp [buildLoop]
  | cons msg rest ih =>
    intro lastRole hchain hhead
    rw [buildLoop, if_neg (hhead msg rfl), List.map_cons]
    refine congrArg _ (ih (some (toGeminiRole msg.role)) hchain.tail ?_)
    intro m hm heq
    have hne := (List.chain'_cons'.mp hchain).1 m hm
    exact hne (Option.some.inj heq).symm

/-- A run of messages whose mapped role equals `r` is skipped whole by the
walk under `lastRole = some r`: none of its contents reach the output. -/
theorem buildLoop_skip_run (rest : List Message) (r : GRole) :
    ∀ dups : List Message, (∀ d ∈ dups, toGeminiRole d.role = r) →
      buildLoop (dups ++ rest) (some r) = buildLoop rest (some r) := by
  intro dups
  induction dups with
  | nil => intro _; rfl
  | cons d ds ih =>
    intro h
    rw [List.cons_append, buildLoop,
      if_pos (by rw [h d (List.mem_cons_self d ds)]),
      ih (fun x hx => h x (List.mem_cons_of_mem d hx))]

/-- Filtering empty-content messages is idempotent. -/
theorem filter_content_idem (l : List Message) :
    (l.filter (fun m => decide (m.content ≠ ""))).filter (fun m => decide (m.content ≠ ""))
      = l.filter (fun m => decide (m.content ≠ "")) := by
  induction l with
  | nil => rfl
  | cons a l ih =>
    by_cases ha : a.content = "" <;> simp [List.filter_cons, ha, ih]

/-- The loop leaves the caller's `messages` array untouched. -/
theorem normLoopGo_messages (messagesArr : List Message) :
    ∀ (l : List Message) (lastRole : Option GRole) (filteredHistory : List Turn),
      (normLoopGo messagesArr lastRole filteredHistory l).messages = messagesArr := by
  intro l
  induction l with
  | nil => intro _ _; rfl
  | cons msg rest ih =>
    intro lastRole filteredHistory
    by_cases hc : some (toGeminiRole msg.role) = lastRole
    · rw [normLoopGo, if_pos hc]; exact ih _ _
    · rw [normLoopGo, if_neg hc]; exact ih _ _

/-- The pushes of the operational loop accumulate exactly the turns of the
recursive walk `buildLoop`. -/
theorem normLoopGo_filteredHistory (messagesArr : List Message) :
    ∀ (l : List Message) (lastRole : Option GRole) (filteredHistory : List Turn),
      (normLoopGo messagesArr lastRole filteredHistory l).filteredHistory
        = filteredHistory ++ buildLoop l lastRole := by
  intro l
  induction l with
  | nil => intro _ _; simp [normLoopGo, buildLoop]
  | cons msg rest ih =>
    intro lastRole filteredHistory
    by_cases hc : some (toGeminiRole msg.role) = lastRole
    · rw [normLoopGo, if_pos hc, buildLoop, if_pos hc]; exact ih _ _
    · rw [normLoopGo, if_neg hc, buildLoop, if_neg hc, ih]
      simp

/-- If every model before `mid` fails rate-limited and `mid` succeeds, the
fallback loop returns `mid`'s text having attempted exactly the models up to
and including `mid`. -/
theorem modelsLoop_success (attempt : String → GenResult) :
    ∀ (pre : List String) (mid : String) (suf : List String)
      (lastK : Option JsError) (text : String),
      (∀ p ∈ pre, ∃ e, attempt p = GenResult.failure e ∧ isRateLimited e = true) →
      attempt mid = GenResult.success text →
      modelsLoop attempt (pre ++ mid :: suf) lastK = (pre ++ [mid], OrchResult.ok text) := by
  intro pre
  induction pre with
  | nil =>
    intro mid suf lastK text _ hmid
    simp [modelsLoop, hmid]
  | cons p ps ih =>
    intro mid suf lastK text hpre hmid
    obtain ⟨e, he, hre⟩ := hpre p (List.mem_cons_self p ps)
    simp only [List.cons_append, modelsLoop, he, hre, if_true, List.append_eq]
    rw [ih mid suf (some e) text (fun q hq => hpre q (List.mem_cons_of_mem p hq)) hmid]

/-- The models the fallback loop attempts are an initial segment of the
model list, in order. -/
theorem modelsLoop_trace (attempt : String → GenResult) :
    ∀ (models : List String) (lastK : Option JsError),
      ∃ n, n ≤ models.length ∧ (modelsLoop attempt models lastK).1 = models.take n := by
  intro models
  induction models with
  | nil =>
    intro lastK
    exact ⟨0, Nat.le_refl 0, by cases lastK <;> simp [modelsLoop]⟩
  | cons m rest ih =>
    intro lastK
    cases hm : attempt m with
    | success text =>
      exact ⟨1, by simp, by simp [modelsLoop, hm]⟩
    | failure err =>
      by_cases hr : isRateLimited err
      · obtain ⟨n, hn, htr⟩ := ih (some err)
        exact ⟨n + 1, by simpa using Nat.succ_le_succ hn,
          by simp [modelsLoop, hm, hr, htr]⟩
      · exact ⟨1, by simp, by simp [modelsLoop, hm, hr]⟩

/-- The classification test of line 100 is equivalent to plain substring
containment of `"429"`: a truthiness guard on an empty message cannot make a
difference, since `""` contains no `"429"`. -/
theorem isRateLimited_eq_includes (err : JsError) :
    isRateLimited err = strIncludes err.message "429" := by
  by_cases hm : err.message = ""
  · rw [isRateLimited, hm]; decide
  · have hb : (err.message != "") = true := by simp [hm]
    rw [isRateLimited, hb, Bool.true_and]

/-! ## The claims -/

/-- Claim C1: the sequence returned by `buildGeminiHistory` never starts with
a `model` turn — if non-empty, its first element has role `user` — and no two
adjacent turns share a role (strict alternation). -/
theorem c1_history_first_user_and_alternating (messages : List Message) :
    (∀ t, (buildGeminiHistory messages).head? = some t → t.role = GRole.user) ∧
    List.Chain' (fun a b : Turn => a.role ≠ b.role) (buildGeminiHistory messages) := by
  constructor
  · intro t ht
    simp only [buildGeminiHistory] at ht
    split at ht
    · simp at ht
    · rename_i i hfi
      obtain ⟨m, rest, hdrop, hm⟩ := findIndexP_drop _ _ _ hfi
      rw [hdrop, buildLoop, if_neg (by simp)] at ht
      simp only [List.head?_cons, Option.some.injEq] at ht
      have hrole : m.role = Role.user := of_decide_eq_true hm
      rw [← ht]
      simp [toGeminiRole, hrole]
  · simp only [buildGeminiHistory]
    split
    · simp
    · exact buildLoop_chain _ _

/-- Witness for C1 at a concrete two-message history. -/
theorem c1_witness :
    (⟨GRole.user, [Part.mk "hi"]⟩ : Turn).role = GRole.user ∧
    List.Chain' (fun a b : Turn => a.role ≠ b.role)
      (buildGeminiHistory [⟨Role.user, "hi"⟩, ⟨Role.assistant, "yo"⟩]) :=
  ⟨(c1_history_first_user_and_alternating
      [⟨Role.user, "hi"⟩, ⟨Role.assistant, "yo"⟩]).1
        ⟨GRole.user, [Part.mk "hi"]⟩ (by decide),
   (c1_history_first_user_and_alternating
      [⟨Role.user, "hi"⟩, ⟨Role.assistant, "yo"⟩]).2⟩

/-- Claim C5: a run of consecutive same-mapped-role messages collapses to the
first message of the run — every further message of the run is skipped whole,
its content neither merged nor concatenated — and the spec's concrete
scenario normalizes as stated. -/
theorem c5_same_role_run_collapse :
    (∀ (m : Message) (dups rest : List Message) (lastRole : Option GRole),
      some (toGeminiRole m.role) ≠ lastRole →
      (∀ d ∈ dups, toGeminiRole d.role = toGeminiRole m.role) →
      buildLoop (m :: (dups ++ rest)) lastRole
        = turnOf m :: buildLoop rest (some (toGeminiRole m.role))) ∧
    buildGeminiHistory
        [⟨Role.user, "hi"⟩, ⟨Role.assistant, ""⟩, ⟨Role.assistant, "hello"⟩,
         ⟨Role.user, "bye"⟩]
      = [⟨GRole.user, [⟨"hi"⟩]⟩, ⟨GRole.model, [⟨"hello"⟩]⟩,
         ⟨GRole.user, [⟨"bye"⟩]⟩] := by
  constructor
  · intro m dups rest lastRole hne hdups
    rw [buildLoop, if_neg hne, buildLoop_skip_run rest (toGeminiRole m.role) dups hdups]
    rfl
  · decide

/-- Witness for C5: a two-message assistant run collapses to its first
message. -/
theorem c5_witness :
    buildLoop
        [⟨Role.assistant, "a"⟩, ⟨Role.assistant, "b"⟩, ⟨Role.user, "c"⟩] none
      = turnOf ⟨Role.assistant, "a"⟩ :: buildLoop [⟨Role.user, "c"⟩] (some GRole.model) :=
  c5_same_role_run_collapse.1 ⟨Role.assistant, "a"⟩ [⟨Role.assistant, "b"⟩]
    [⟨Role.user, "c"⟩] none (by decide) (by decide)

/-- Claim C6: when no message (surviving the empty-content filter) has role
`user`, the normalizer returns the empty history, without error. -/
theorem c6_no_user_returns_empty (messages : List Message)
    (h : ∀ m ∈ messages, m.content ≠ "" → m.role ≠ Role.user) :
    buildGeminiHistory messages = [] := by
  have hnone : findIndexP (fun m => decide (m.role = Role.user))
      (messages.filter (fun m => decide (m.content ≠ ""))) = none := by
    apply findIndexP_none
    intro m hm
    rw [List.mem_filter] at hm
    have hc : m.content ≠ "" := of_decide_eq_true hm.2
    simp [h m hm.1 hc]
  simp only [buildGeminiHistory, hnone]

/-- Witness for C6 at an assistant-only history (plus an empty user
message, which the filter removes). -/
theorem c6_witness :
    buildGeminiHistory [⟨Role.assistant, "old"⟩, ⟨Role.user, ""⟩] = [] :=
  c6_no_user_returns_empty [⟨Role.assistant, "old"⟩, ⟨Role.user, ""⟩] (by decide)

/-- Claim C7: empty-content messages are discarded before the first-user
search and the walk (the normalizer factors through the filter), so every
turn of the output comes from an input message with non-empty content. -/
theorem c7_empty_content_discarded (messages : List Message) :
    buildGeminiHistory (messages.filter (fun m => decide (m.content ≠ "")))
      = buildGeminiHistory messages ∧
    ∀ t ∈ buildGeminiHistory messages,
      ∃ m ∈ messages, m.content ≠ "" ∧ t = turnOf m := by
  constructor
  · simp only [buildGeminiHistory, filter_content_idem]
  · intro t ht
    simp only [buildGeminiHistory] at ht
    split at ht
    · simp at ht
    · obtain ⟨m, hm, hmt⟩ := buildLoop_mem _ _ t ht
      have hmem := List.drop_subset _ _ hm
      rw [List.mem_filter] at hmem
      exact ⟨m, hmem.1, of_decide_eq_true hmem.2, hmt⟩

/-- Witness for C7: the surviving turn of a history with one empty message
originates in its non-empty message. -/
theorem c7_witness :
    ∃ m ∈ [(⟨Role.user, "hi"⟩ : Message), ⟨Role.user, ""⟩],
      m.content ≠ "" ∧ (⟨GRole.user, [⟨"hi"⟩]⟩ : Turn) = turnOf m :=
  (c7_empty_content_discarded [⟨Role.user, "hi"⟩, ⟨Role.user, ""⟩]).2
    ⟨GRole.user, [⟨"hi"⟩]⟩ (by decide)

/-- Claim C8: on input that is already pruned (no empty contents), begins
with a `user` message, and strictly alternates roles, the normalizer returns
the input unchanged up to the `assistant` to `model` renaming (and `parts`
wrapping), i.e. it is idempotent on its own output read back as messages. -/
theorem c8_alternating_input_fixed (messages : List Message) (m0 : Message)
    (rest0 : List Message) (hm : messages = m0 :: rest0)
    (hrole : m0.role = Role.user)
    (hcontent : ∀ m ∈ messages, m.content ≠ "")
    (halt : List.Chain' (fun a b : Message => a.role ≠ b.role) messages) :
    buildGeminiHistory messages = messages.map turnOf := by
  subst hm
  have hfilter : (m0 :: rest0).filter (fun m => decide (m.content ≠ "")) = m0 :: rest0 :=
    List.filter_eq_self.mpr (fun a ha => decide_eq_true (hcontent a ha))
  have hidx : findIndexP (fun m => decide (m.role = Role.user)) (m0 :: rest0) = some 0 := by
    rw [findIndexP, if_pos (decide_eq_true hrole)]
  simp only [buildGeminiHistory, hfilter, hidx, List.drop_zero]
  apply buildLoop_eq_map
  · exact halt.imp (fun a b hab h => hab (toGeminiRole_inj _ _ h))
  · intro m _ heq
    simp at heq

/-- Witness for C8 at a concrete alternating history. -/
theorem c8_witness :
    buildGeminiHistory [⟨Role.user, "a"⟩, ⟨Role.assistant, "b"⟩]
      = [(⟨Role.user, "a"⟩ : Message), ⟨Role.assistant, "b"⟩].map turnOf :=
  c8_alternating_input_fixed [⟨Role.user, "a"⟩, ⟨Role.assistant, "b"⟩]
    ⟨Role.user, "a"⟩ [⟨Role.assistant, "b"⟩] rfl rfl (by decide)
    (by simp [List.chain'_cons, List.chain'_singleton])

/-- Claim C9: the normalizer is a pure, total, deterministic function of its
input: run operationally, the loop leaves the caller's `messages` array
untouched and its pushes build exactly the history the function-level
normalizer returns — a (possibly empty) sequence, with no failure mode. -/
theorem c9_pure_total_no_mutation (messages : List Message) :
    (buildGeminiHistoryExec messages).1 = messages ∧
    (buildGeminiHistoryExec messages).2 = buildGeminiHistory messages := by
  simp only [buildGeminiHistoryExec, buildGeminiHistory]
  cases hfi : findIndexP (fun m => decide (m.role = Role.user))
      (messages.filter (fun m => decide (m.content ≠ ""))) with
  | none => simp
  | some i => simp [normLoopGo_messages, normLoopGo_filteredHistory]

/-- Claim C2: an attempt error is classified rate-limited exactly when its
message contains `"429"`; such an error is recorded as the latest known
error and the loop proceeds to the next model, while any other error aborts
immediately, propagating the original error object with no further model
attempted. -/
theorem c2_error_classification (attempt : String → GenResult) (modelName : String)
    (restModels : List String) (lastK : Option JsError) (err : JsError)
    (hfail : attempt modelName = GenResult.failure err) :
    (isRateLimited err = strIncludes err.message "429") ∧
    (strIncludes err.message "429" = true →
      modelsLoop attempt (modelName :: restModels) lastK
        = (modelName :: (modelsLoop attempt restModels (some err)).1,
           (modelsLoop attempt restModels (some err)).2)) ∧
    (strIncludes err.message "429" = false →
      modelsLoop attempt (modelName :: restModels) lastK
        = ([modelName], OrchResult.thrown err)) := by
  refine ⟨isRateLimited_eq_includes err, ?_, ?_⟩
  · intro h429
    have hr : isRateLimited err = true := by rw [isRateLimited_eq_includes, h429]
    simp [modelsLoop, hfail, hr]
  · intro h429
    have hr : isRateLimited err = false := by rw [isRateLimited_eq_includes, h429]
    simp [modelsLoop, hfail, hr]

/-- Witness for C2: a `"HTTP 429"` failure on the first of two models makes
the loop record it and move on. -/
theorem c2_witness :
    modelsLoop (fun _ => GenResult.failure ⟨"HTTP 429", 7⟩) ["a", "b"] none
      = ("a" :: (modelsLoop (fun _ => GenResult.failure ⟨"HTTP 429", 7⟩)
            ["b"] (some ⟨"HTTP 429", 7⟩)).1,
         (modelsLoop (fun _ => GenResult.failure ⟨"HTTP 429", 7⟩)
            ["b"] (some ⟨"HTTP 429", 7⟩)).2) :=
  (c2_error_classification (fun _ => GenResult.failure ⟨"HTTP 429", 7⟩)
    "a" ["b"] none ⟨"HTTP 429", 7⟩ rfl).2.1 (by decide)

/-- Claim C3: for non-empty input the orchestrator treats the last message as
the new prompt (whatever its role) and the normalized remaining prefix as the
history, and returns the first successful attempt's text immediately,
attempting no later model. -/
theorem c3_split_and_short_circuit (attempt : String → List Turn → String → GenResult)
    (messages : List Message) (pm : Message) (hlast : messages.getLast? = some pm) :
    (getGeminiAPIResponseT attempt messages
      = modelsLoop
          (fun modelName =>
            attempt modelName (buildGeminiHistory messages.dropLast) pm.content)
          MODELS_TO_TRY none) ∧
    (∀ (pre : List String) (mid : String) (suf : List String) (text : String),
      MODELS_TO_TRY = pre ++ mid :: suf →
      (∀ p ∈ pre, ∃ e,
        attempt p (buildGeminiHistory messages.dropLast) pm.content
          = GenResult.failure e ∧ isRateLimited e = true) →
      attempt mid (buildGeminiHistory messages.dropLast) pm.content
        = GenResult.success text →
      getGeminiAPIResponseT attempt messages = (pre ++ [mid], OrchResult.ok text)) := by
  have hunfold : getGeminiAPIResponseT attempt messages
      = modelsLoop
          (fun modelName =>
            attempt modelName (buildGeminiHistory messages.dropLast) pm.content)
          MODELS_TO_TRY none := by
    simp only [getGeminiAPIResponseT, hlast]
  refine ⟨hunfold, ?_⟩
  intro pre mid suf text hsplit hpre hmid
  rw [hunfold, hsplit]
  exact modelsLoop_success _ pre mid suf none text hpre hmid

/-- Witness for C3: first model rate-limited, second succeeds, third never
attempted. -/
theorem c3_witness :
    getGeminiAPIResponseT
        (fun m _ _ =>
          if m = "gemini-2.5-pro" then GenResult.failure ⟨"oops 429", 1⟩
          else GenResult.success "yay")
        [⟨Role.user, "q"⟩]
      = (["gemini-2.5-pro"] ++ ["gemini-2.5-flash"], OrchResult.ok "yay") :=
  (c3_split_and_short_circuit
    (fun m _ _ =>
      if m = "gemini-2.5-pro" then GenResult.failure ⟨"oops 429", 1⟩
      else GenResult.success "yay")
    [⟨Role.user, "q"⟩] ⟨Role.user, "q"⟩ rfl).2
    ["gemini-2.5-pro"] "gemini-2.5-flash" ["gemini-2.5-flash-lite"] "yay" rfl
    (by
      intro p hp
      rw [List.mem_singleton] at hp
      subst hp
      exact ⟨⟨"oops 429", 1⟩, by decide, by decide⟩)
    (by decide)

/-- Claim C4: when every model in the priority list fails rate-limited, the
orchestrator fails with the aggregate "all models unavailable" error wrapping
the last recorded error's message — and that aggregate error arises only in
that all-rate-limited case. -/
theorem c4_exhaustion_aggregate (attempt : String → List Turn → String → GenResult)
    (messages : List Message) (pm : Message) (hlast : messages.getLast? = some pm) :
    (∀ e1 e2 e3,
      attempt "gemini-2.5-pro" (buildGeminiHistory messages.dropLast) pm.content
          = GenResult.failure e1 →
      isRateLimited e1 = true →
      attempt "gemini-2.5-flash" (buildGeminiHistory messages.dropLast) pm.content
          = GenResult.failure e2 →
      isRateLimited e2 = true →
      attempt "gemini-2.5-flash-lite" (buildGeminiHistory messages.dropLast) pm.content
          = GenResult.failure e3 →
      isRateLimited e3 = true →
      getGeminiAPIResponseT attempt messages
        = (MODELS_TO_TRY,
           OrchResult.allUnavailable
             ("All Gemini models are unavailable. Last error: " ++ e3.message))) ∧
    (∀ s, getGeminiAPIResponse attempt messages = OrchResult.allUnavailable s →
      ∃ e1 e2 e3,
        attempt "gemini-2.5-pro" (buildGeminiHistory messages.dropLast) pm.content
            = GenResult.failure e1 ∧
        isRateLimited e1 = true ∧
        attempt "gemini-2.5-flash" (buildGeminiHistory messages.dropLast) pm.content
            = GenResult.failure e2 ∧
        isRateLimited e2 = true ∧
        attempt "gemini-2.5-flash-lite" (buildGeminiHistory messages.dropLast) pm.content
            = GenResult.failure e3 ∧
        isRateLimited e3 = true ∧
        s = "All Gemini models are unavailable. Last error: " ++ e3.message) := by
  constructor
  · intro e1 e2 e3 h1 r1 h2 r2 h3 r3
    simp only [getGeminiAPIResponseT, hlast, MODELS_TO_TRY, modelsLoop,
      h1, r1, h2, r2, h3, r3, if_true]
  · intro s hs
    simp only [getGeminiAPIResponse, getGeminiAPIResponseT, hlast, MODELS_TO_TRY,
      modelsLoop] at hs
    cases h1 : attempt "gemini-2.5-pro" (buildGeminiHistory messages.dropLast) pm.content with
    | success t => simp [h1] at hs
    | failure e1 =>
      cases r1 : isRateLimited e1 with
      | false => simp [h1, r1] at hs
      | true =>
        cases h2 : attempt "gemini-2.5-flash"
            (buildGeminiHistory messages.dropLast) pm.content with
        | success t => simp [h1, r1, h2] at hs
        | failure e2 =>
          cases r2 : isRateLimited e2 with
          | false => simp [h1, r1, h2, r2] at hs
          | true =>
            cases h3 : attempt "gemini-2.5-flash-lite"
                (buildGeminiHistory messages.dropLast) pm.content with
            | success t => simp [h1, r1, h2, r2, h3] at hs
            | failure e3 =>
              cases r3 : isRateLimited e3 with
              | false => simp [h1, r1, h2, r2, h3, r3] at hs
              | true =>
                simp only [h1, r1, h2, r2, h3, r3, if_true,
                  OrchResult.allUnavailable.injEq] at hs
                exact ⟨e1, e2, e3, rfl, r1, rfl, r2, rfl, r3, hs.symm⟩

/-- Witness for C4: every model answering `"quota 429"` yields the aggregate
error wrapping that message. -/
theorem c4_witness :
    getGeminiAPIResponseT (fun _ _ _ => GenResult.failure ⟨"quota 429", 2⟩)
        [⟨Role.user, "q"⟩]
      = (MODELS_TO_TRY,
         OrchResult.allUnavailable
           ("All Gemini models are unavailable. Last error: " ++
             JsError.message ⟨"quota 429", 2⟩)) :=
  (c4_exhaustion_aggregate (fun _ _ _ => GenResult.failure ⟨"quota 429", 2⟩)
    [⟨Role.user, "q"⟩] ⟨Role.user, "q"⟩ rfl).1
    ⟨"quota 429", 2⟩ ⟨"quota 429", 2⟩ ⟨"quota 429", 2⟩
    rfl (by decide) rfl (by decide) rfl (by decide)

/-- Claim C10: per call the orchestrator attempts an initial segment of the
fixed three-model priority list — so at most three attempts, each model at
most once, strictly in list order — and, the attempt oracle being a total
function, the call terminates with a result after those attempts. -/
theorem c10_attempt_budget (attempt : String → List Turn → String → GenResult)
    (messages : List Message) :
    ∃ n, n ≤ 3 ∧ (getGeminiAPIResponseT attempt messages).1 = MODELS_TO_TRY.take n ∧
      (getGeminiAPIResponseT attempt messages).1.Nodup := by
  cases hlast : messages.getLast? with
  | none =>
    exact ⟨0, by simp, by simp [getGeminiAPIResponseT, hlast],
      by simp [getGeminiAPIResponseT, hlast]⟩
  | some pm =>
    obtain ⟨n, hn, htr⟩ := modelsLoop_trace
      (fun modelName =>
        attempt modelName (buildGeminiHistory messages.dropLast) pm.content)
      MODELS_TO_TRY none
    have h3 : n ≤ 3 := by simpa [ MODELS_TO_TRY] using hn
    have htrace : (getGeminiAPIResponseT attempt messages).1 = MODELS_TO_TRY.take n := by
      simp only [getGeminiAPIResponseT, hlast]
      exact htr
    refine ⟨n, h3, htrace, ?_⟩
    rw [htrace]
    exact List.Nodup.sublist (List.take_sublist n MODELS_TO_TRY) (by decide)

end Synapse
